import Mathlib

/-!
Verification of the Nimbus repository's waitlist / rate-limiting / middleware
code against its natural-language specification.

The definitions below are shallow embeddings of the TypeScript sources:
  * `src/apps/web/app/api/waitlist/join/route.ts` (in-memory rate limiter,
    email validation, waitlist `POST` handler),
  * the database-backed variant of the same route (`checkRateLimitDB` and its
    `POST` handler),
  * `src/apps/web/middleware.ts`,
  * the `rate_limit_attempts` table from
    `src/packages/db/drizzle/0002_fast_the_enforcers.sql`.

Machine conventions: JavaScript millisecond timestamps are modelled as `Nat`;
JS strings are modelled as `String` where they are only compared for equality
(IP keys) and as `List Char` where their character content matters (emails,
paths).  `remaining` is an `Int` because `limit - 1` may be negative in JS.
-/

set_option maxRecDepth 4000

namespace Nimbus

/-! ### In-memory rate limiter (`route.ts`, lines 8-39) -/

/-- Per-IP record stored in the in-memory `rateLimitStore`
(`route.ts` line 9): `{ count: number; resetTime: number }`, times in ms. -/
structure RLRecord where
  count : Nat
  resetTime : Nat
  deriving DecidableEq, Repr

/-- Result of a rate-limit check (`route.ts` lines 19, 23, 28).  `remaining`
is an `Int` since JS computes `limit - 1`, which is `-1` when `limit = 0`. -/
structure RLResult where
  allowed : Bool
  remaining : Int
  resetTime : Nat
  deriving DecidableEq, Repr

/-- The in-memory store `rateLimitStore : Map<string, {count, resetTime}>`,
modelled as a partial map from IP strings to records. -/
def RLStore : Type := String → Option RLRecord

/-- `rateLimitStore.set(ip, r)` (`route.ts` line 18). -/
def RLStore.set (s : RLStore) (ip : String) (r : RLRecord) : RLStore :=
  fun k => if k = ip then some r else s k

/-- The store as of module initialization: `new Map()` (`route.ts` line 9). -/
def rateLimitStore0 : RLStore := fun _ => none

/-- `checkRateLimit` (`route.ts` lines 12-29).  The JS guard
`!record || now > record.resetTime` is split into the `none` match arm and
the `now > record.resetTime` test; both produce the same fresh window. -/
def checkRateLimit (store : RLStore) (ip : String) (limit windowMs now : Nat) :
    RLResult × RLStore :=
  match store ip with
  | none =>
      ({ allowed := true, remaining := (limit : Int) - 1, resetTime := now + windowMs },
       store.set ip { count := 1, resetTime := now + windowMs })
  | some record =>
      if now > record.resetTime then
        ({ allowed := true, remaining := (limit : Int) - 1, resetTime := now + windowMs },
         store.set ip { count := 1, resetTime := now + windowMs })
      else if record.count ≥ limit then
        ({ allowed := false, remaining := 0, resetTime := record.resetTime }, store)
      else
        ({ allowed := true, remaining := (limit : Int) - (record.count + 1),
           resetTime := record.resetTime },
         store.set ip { count := record.count + 1, resetTime := record.resetTime })

/-- The periodic cleanup body (`route.ts` lines 32-39): delete every entry
with `now > value.resetTime`. -/
def cleanupExpired (store : RLStore) (now : Nat) : RLStore :=
  fun k =>
    match store k with
    | none => none
    | some r => if now > r.resetTime then none else some r

/-! ### Database-backed rate limiter (`checkRateLimitDB`, unnamed route
variant lines 9-40, backed by the `rate_limit_attempts` table from migration
`0002_fast_the_enforcers.sql`). -/

/-- A row of `rate_limit_attempts` (`identifier` primary key, `count`,
`expires_at`); the timestamp is in ms like `Date`. -/
structure DBAttempt where
  count : Nat
  expiresAt : Nat
  deriving DecidableEq, Repr

/-- The persisted `rate_limit_attempts` table, as a partial map over the
`identifier` primary key. -/
def DBStore : Type := String → Option DBAttempt

/-- Upsert of a row keyed by `identifier` (the `insert ... onConflictDoUpdate`
and `update ... where identifier = ip` statements both write exactly the
row for `ip`). -/
def DBStore.set (s : DBStore) (ip : String) (r : DBAttempt) : DBStore :=
  fun k => if k = ip then some r else s k

/-- An empty `rate_limit_attempts` table. -/
def dbStore0 : DBStore := fun _ => none

/-- `checkRateLimitDB` (unnamed route variant, lines 9-40).  The JS guard
`!currentAttempt || currentAttempt.expiresAt < now` is split into the `none`
arm and the `expiresAt < now` test; the increment branch issues
`count = count + 1` and reports `limit - (currentAttempt.count + 1)`. -/
def checkRateLimitDB (tbl : DBStore) (ip : String) (limit windowMs now : Nat) :
    RLResult × DBStore :=
  match tbl ip with
  | none =>
      ({ allowed := true, remaining := (limit : Int) - 1, resetTime := now + windowMs },
       tbl.set ip { count := 1, expiresAt := now + windowMs })
  | some currentAttempt =>
      if currentAttempt.expiresAt < now then
        ({ allowed := true, remaining := (limit : Int) - 1, resetTime := now + windowMs },
         tbl.set ip { count := 1, expiresAt := now + windowMs })
      else if currentAttempt.count ≥ limit then
        ({ allowed := false, remaining := 0, resetTime := currentAttempt.expiresAt }, tbl)
      else
        ({ allowed := true, remaining := (limit : Int) - (currentAttempt.count + 1),
           resetTime := currentAttempt.expiresAt },
         tbl.set ip { count := currentAttempt.count + 1,
                      expiresAt := currentAttempt.expiresAt })

/-! ### Sequential runs of the two limiters -/

/-- Run `checkRateLimit` for one IP over a list of request timestamps,
collecting the per-request results and the final store. -/
def rlRun (ip : String) (limit windowMs : Nat) :
    RLStore → List Nat → List RLResult × RLStore
  | s, [] => ([], s)
  | s, t :: ts =>
      let p := checkRateLimit s ip limit windowMs t
      let q := rlRun ip limit windowMs p.2 ts
      (p.1 :: q.1, q.2)

/-- Run `checkRateLimitDB` for one IP over a list of request timestamps. -/
def dbRun (ip : String) (limit windowMs : Nat) :
    DBStore → List Nat → List RLResult × DBStore
  | s, [] => ([], s)
  | s, t :: ts =>
      let p := checkRateLimitDB s ip limit windowMs t
      let q := dbRun ip limit windowMs p.2 ts
      (p.1 :: q.1, q.2)

/-- The in-memory record for `ip` and the persisted row for `ip` carry the
same count and expiry. -/
def attemptsAgree (o1 : Option RLRecord) (o2 : Option DBAttempt) : Prop :=
  o1.map (fun r => (r.count, r.resetTime)) = o2.map (fun a => (a.count, a.expiresAt))

/-- Number of results in a run that were allowed and belong to the window
ending at `r` (every result issued inside one window carries that window's
`resetTime`). -/
def countAllowedAt (rs : List RLResult) (r : Nat) : Nat :=
  rs.countP (fun x => x.allowed && (x.resetTime == r))

/-- Upper bound on how many more allowed results the window ending at `r` can
still receive, given the current record for the IP. -/
def windowBound (l : Nat) : Option RLRecord → Nat → Nat
  | none, _ => l
  | some rec, r =>
      if r = rec.resetTime then l - rec.count
      else if rec.resetTime < r then l else 0

/-! ### JS string primitives over `List Char`

Emails and paths are modelled as `List Char` so that the character-level
behaviour of the JS string methods used by the route (`split`, `endsWith`,
`startsWith`, `toLowerCase`, `trim`) can be reasoned about directly. -/

/-- Model of JS `String.prototype.split` with a one-character separator:
`"a@b".split("@") = ["a","b"]`, `"".split("@") = [""]`,
`"a@".split("@") = ["a",""]`. -/
def jsSplit (sep : Char) : List Char → List (List Char)
  | [] => [[]]
  | c :: rest =>
      if c = sep then [] :: jsSplit sep rest
      else
        match jsSplit sep rest with
        | [] => [[c]]
        | h :: t => (c :: h) :: t

/-- Model of JS `toLowerCase` on one character: ASCII `A`-`Z` (code points
65-90) map to `a`-`z` (code point + 32); every other character is kept.
(The emails and paths handled by the route are ASCII.) -/
def jsToLowerChar (c : Char) : Char :=
  if h : 65 ≤ c.toNat ∧ c.toNat ≤ 90 then
    ⟨⟨⟨c.toNat + 32, by omega⟩⟩, Or.inl (show c.toNat + 32 < 55296 by omega)⟩
  else c

/-- Model of JS `toLowerCase` on a string. -/
def jsToLower (s : List Char) : List Char := s.map jsToLowerChar

/-- Whitespace predicate used to model JS `trim` (the ASCII whitespace
characters: space, tab, line feed, vertical tab, form feed, carriage
return). -/
def isJsWs (c : Char) : Bool :=
  decide (c.toNat = 32 ∨ c.toNat = 9 ∨ c.toNat = 10 ∨ c.toNat = 11 ∨
    c.toNat = 12 ∨ c.toNat = 13)

/-- Model of JS `String.prototype.trim`: strip whitespace from both ends. -/
def jsTrim (s : List Char) : List Char :=
  ((s.dropWhile isJsWs).reverse.dropWhile isJsWs).reverse

/-- The normalization both handlers apply before storing or looking up an
email: `email.toLowerCase().trim()` (`route.ts` lines 99 and 110). -/
def normEmail (e : List Char) : List Char := jsTrim (jsToLower e)

/-! ### Email validation (`route.ts` lines 41-63; identical in the
database-backed route variant, lines 42-64, apart from the error message) -/

/-- `ALLOWED_DOMAINS` (`route.ts` line 42). -/
def ALLOWED_DOMAINS : List (List Char) :=
  ["gmail.com".data, "outlook.com".data, "yahoo.com".data, "proton.me".data]

/-- `const [, domain] = email.split("@")` followed by the falsy check
`if (!domain) return false` (`route.ts` lines 50-51): the element at index 1
of the split, treated as missing when absent or empty. -/
def domainOf (email : List Char) : Option (List Char) :=
  match jsSplit '@' email with
  | _ :: d :: _ => if d = [] then none else some d
  | _ => none

/-- The allow-list check (`route.ts` line 54):
`ALLOWED_DOMAINS.some(a => domain === a || domain.endsWith("." + a))`.
Note the comparisons are case-sensitive. -/
def allowCheck (domain : List Char) : Bool :=
  ALLOWED_DOMAINS.any (fun a => domain == a || List.isSuffixOf ('.' :: a) domain)

/-- One character of the TLD pattern `/^[a-z]{2,63}$/i`: a letter of either
case (the `i` flag makes the class case-insensitive). -/
def isAsciiAlpha (c : Char) : Bool :=
  (decide (97 ≤ c.toNat) && decide (c.toNat ≤ 122)) ||
    (decide (65 ≤ c.toNat) && decide (c.toNat ≤ 90))

/-- The TLD test `/^[a-z]{2,63}$/i.test(tld)` (`route.ts` line 61). -/
def tldOk (t : List Char) : Bool :=
  decide (2 ≤ t.length) && decide (t.length ≤ 63) && t.all isAsciiAlpha

/-- The `refine` body of `emailSchema` (`route.ts` lines 49-62): extract the
domain, check the allow-list, then require 2 or 3 dot-separated labels and a
valid TLD (`labels.at(-1)` is the last label). -/
def refineCheck (email : List Char) : Bool :=
  match domainOf email with
  | none => false
  | some domain =>
      if allowCheck domain then
        let labels := jsSplit '.' domain
        if decide (2 ≤ labels.length) && decide (labels.length ≤ 3) then
          tldOk (labels.getLastD [])
        else false
      else false

/-- `emailSchema.safeParse` succeeding on a payload with email `e`: zod's
built-in `.email()` pattern (library code outside this repository, passed in
as `zodBase`) and then the `refine` check. -/
def emailAccepted (zodBase : List Char → Bool) (e : List Char) : Bool :=
  zodBase e && refineCheck e

/-! ### The waitlist `POST` handlers -/

/-- Error payloads the handlers place in the `error` field of their JSON
responses: either a string message or the structured `result.error.format()`
object of `route.ts` line 90. -/
inductive ErrVal where
  | msg (s : List Char)
  | zodFormat
  deriving DecidableEq, Repr

def tooManyMsg : List Char :=
  "Too many requests. Please wait before trying again.".data

def duplicateMsg : List Char := "This email is already on the waitlist".data

def internalErrorMsg : List Char := "Internal server error".data

def invalidEmailMsgBase : List Char := "Please enter a valid email address".data

def invalidEmailMsgRefine : List Char := "Invalid email, please try again".data

def requiredMsg : List Char := "Required".data

/-- A JSON response from the waitlist route: HTTP status plus the body
fields (`success`, optional `error`, optional `retryAfter` in seconds). -/
structure JsonResp where
  status : Nat
  success : Bool
  error : Option ErrVal := none
  retryAfter : Option Nat := none
  deriving DecidableEq, Repr

/-- The request body as seen through `await request.json()` and
`emailSchema.safeParse`: JSON parsing may throw (`invalidJson`), the parsed
object may lack a usable string `email` field (`noEmail`), or carry one. -/
inductive ReqBody where
  | invalidJson
  | noEmail
  | withEmail (e : List Char)
  deriving DecidableEq, Repr

/-- A row of the `waitlist` table (id from `nanoid()`, stored email). -/
structure WaitlistRow where
  id : String
  email : List Char
  deriving DecidableEq, Repr

/-- State touched by the in-memory-limiter `POST`: the rate-limit store and
the `waitlist` table in insertion order. -/
structure PostState where
  rl : RLStore
  wl : List WaitlistRow

/-- State touched by the database-backed `POST`: the `rate_limit_attempts`
table and the `waitlist` table. -/
structure DbPostState where
  rl : DBStore
  wl : List WaitlistRow

/-- JS `a || b` for a possibly-absent header value: absent and empty strings
are falsy. -/
def jsOrStr (a : Option String) (b : String) : String :=
  match a with
  | some s => if s = "" then b else s
  | none => b

/-- The parts of the incoming request the handlers look at. -/
structure PostReq where
  xForwardedFor : Option String
  xRealIp : Option String
  body : ReqBody

/-- `request.headers.get("x-forwarded-for") ||
request.headers.get("x-real-ip") || "anonymous"` (`route.ts` line 68). -/
def ipOf (req : PostReq) : String :=
  jsOrStr req.xForwardedFor (jsOrStr req.xRealIp "anonymous")

/-- The `POST` handler of `route.ts` (lines 66-121).  `zodBase` stands for
zod's built-in `.email()` pattern; `dbError` says whether the database calls
would throw (the `catch` at line 117 then answers 500); `newId` is the
`nanoid()` value; `now` is the request's `Date.now()` (the handler reads the
clock twice in quick succession, modelled as one value, so
`Math.ceil((resetTime - Date.now()) / 1000)` on the non-negative difference
becomes `(resetTime - now + 999) / 1000`).  Returns the response, the
resulting state, and whether `request.json()` was reached (body read). -/
def POST (zodBase : List Char → Bool) (req : PostReq) (dbError : Bool)
    (now : Nat) (newId : String) (st : PostState) :
    JsonResp × PostState × Bool :=
  let ip := ipOf req
  let p := checkRateLimit st.rl ip 3 60000 now
  if !p.1.allowed then
    ({ status := 429, success := false, error := some (.msg tooManyMsg),
       retryAfter := some ((p.1.resetTime - now + 999) / 1000) },
     { rl := p.2, wl := st.wl }, false)
  else
    match req.body with
    | .invalidJson =>
        ({ status := 500, success := false, error := some (.msg internalErrorMsg) },
         { rl := p.2, wl := st.wl }, true)
    | .noEmail =>
        ({ status := 400, success := false, error := some .zodFormat },
         { rl := p.2, wl := st.wl }, true)
    | .withEmail e =>
        if zodBase e && refineCheck e then
          if dbError then
            ({ status := 500, success := false, error := some (.msg internalErrorMsg) },
             { rl := p.2, wl := st.wl }, true)
          else
            match st.wl.find? (fun row => row.email == normEmail e) with
            | some _ =>
                ({ status := 400, success := false, error := some (.msg duplicateMsg) },
                 { rl := p.2, wl := st.wl }, true)
            | none =>
                ({ status := 201, success := true },
                 { rl := p.2, wl := st.wl ++ [{ id := newId, email := normEmail e }] },
                 true)
        else
          ({ status := 400, success := false, error := some .zodFormat },
           { rl := p.2, wl := st.wl }, true)

/-- The `POST` handler of the database-backed route variant (lines 67-124).
Structure as in `POST`, but the rate limiter is `checkRateLimitDB` with a
120000 ms window, every database access (including the limiter's) throws
when `dbError` is set, and a zod failure answers with
`result.error.errors[0].message` instead of `result.error.format()`. -/
def DbPOST (zodBase : List Char → Bool) (req : PostReq) (dbError : Bool)
    (now : Nat) (newId : String) (st : DbPostState) :
    JsonResp × DbPostState × Bool :=
  if dbError then
    ({ status := 500, success := false, error := some (.msg internalErrorMsg) },
     st, false)
  else
    let ip := ipOf req
    let p := checkRateLimitDB st.rl ip 3 120000 now
    if !p.1.allowed then
      ({ status := 429, success := false, error := some (.msg tooManyMsg),
         retryAfter := some ((p.1.resetTime - now + 999) / 1000) },
       { rl := p.2, wl := st.wl }, false)
    else
      match req.body with
      | .invalidJson =>
          ({ status := 500, success := false, error := some (.msg internalErrorMsg) },
           { rl := p.2, wl := st.wl }, true)
      | .noEmail =>
          ({ status := 400, success := false, error := some (.msg requiredMsg) },
           { rl := p.2, wl := st.wl }, true)
      | .withEmail e =>
          if zodBase e then
            if refineCheck e then
              match st.wl.find? (fun row => row.email == normEmail e) with
              | some _ =>
                  ({ status := 400, success := false, error := some (.msg duplicateMsg) },
                   { rl := p.2, wl := st.wl }, true)
              | none =>
                  ({ status := 201, success := true },
                   { rl := p.2, wl := st.wl ++ [{ id := newId, email := normEmail e }] },
                   true)
            else
              ({ status := 400, success := false,
                 error := some (.msg invalidEmailMsgRefine) },
               { rl := p.2, wl := st.wl }, true)
          else
            ({ status := 400, success := false,
               error := some (.msg invalidEmailMsgBase) },
             { rl := p.2, wl := st.wl }, true)

/-- One request to `POST`, with its own headers/body, database health, clock
value and `nanoid`. -/
structure PostCall where
  req : PostReq
  dbError : Bool
  now : Nat
  newId : String

/-- Sequential execution of a list of requests against the route. -/
def postRun (zodBase : List Char → Bool) : PostState → List PostCall → PostState
  | st, [] => st
  | st, c :: cs => postRun zodBase (POST zodBase c.req c.dbError c.now c.newId st).2.1 cs

/-- Sequential execution against the database-backed route variant. -/
def dbPostRun (zodBase : List Char → Bool) : DbPostState → List PostCall → DbPostState
  | st, [] => st
  | st, c :: cs => dbPostRun zodBase (DbPOST zodBase c.req c.dbError c.now c.newId st).2.1 cs

/-- Invariant of the `waitlist` table: every stored email is a fixpoint of
the normalization and the stored emails are pairwise distinct (hence no two
rows share a normalized email). -/
def WlInv (wl : List WaitlistRow) : Prop :=
  (∀ row ∈ wl, normEmail row.email = row.email) ∧
    wl.Pairwise (fun r1 r2 => r1.email ≠ r2.email)

/-! ### Middleware (`middleware.ts`) -/

/-- The request fields `middleware` inspects: the pathname and origin of
`request.url`, the better-auth session cookie, and the outcome of
`limiter.check(5, "waitlist:" + ip)` (the `next-rate-limit` library is
external to this repository; `limiterOk = false` means the check threw). -/
structure MwRequest where
  pathname : List Char
  urlOrigin : List Char
  sessionCookie : Option String
  limiterOk : Bool

/-- The three response shapes `middleware` produces: the 429 JSON response
with its `Retry-After` header value, a redirect (`NextResponse.redirect`)
with its location, or `NextResponse.next()`. -/
inductive MwResponse where
  | tooManyRequests (status : Nat) (retryAfterHeader : List Char)
  | redirect (location : List Char)
  | next
  deriving DecidableEq, Repr

/-- The session gate (`middleware.ts` lines 39-46): a `/app` path without a
session cookie is redirected to `new URL("/", request.url)`, i.e. `"/"` on
the request's origin; otherwise the request falls through to
`NextResponse.next()`. -/
def middlewareAuthGate (req : MwRequest) : MwResponse :=
  if List.isPrefixOf ("/app".data) req.pathname then
    match req.sessionCookie with
    | none => .redirect (req.urlOrigin ++ "/".data)
    | some _ => .next
  else .next

/-- `middleware` (`middleware.ts` lines 11-47): waitlist API paths first go
through the library rate limiter (429 with `Retry-After: 300` on failure),
then every request reaches the session gate. -/
def middleware (req : MwRequest) : MwResponse :=
  if List.isPrefixOf ("/api/waitlist".data) req.pathname then
    if req.limiterOk then middlewareAuthGate req
    else .tooManyRequests 429 ("300".data)
  else middlewareAuthGate req

/-! ### Pagination Cursor Manager (spec, section 4.3)

There is no implementation of the Storage Provider Gateway in `src/`; the
definitions below are modelled from the spec. -/

/-- Modelled from the spec: the opaque `Cursor` wraps the provider-native
continuation token together with the source id and operation signature it
was issued for, an embedded expiry, and an integrity tag. -/
structure Cursor where
  sourceId : String
  opSignature : String
  nativeToken : String
  expiresAt : Nat
  tag : UInt64
  deriving Repr

/-- Modelled from the spec: the integrity tag over the cursor's contents so
that tampering is detectable; the claims only need that `issue` and
`resolve` compute it identically. -/
def cursorTag (sid sig tok : String) (expiresAt : Nat) : UInt64 :=
  hash (sid, sig, tok, expiresAt)

/-- Modelled from the spec: the default cursor TTL ("e.g., 10 minutes"),
in milliseconds. -/
def cursorTTL : Nat := 600000

/-- Modelled from the spec: the error taxonomy member a cursor failure
surfaces as. -/
inductive CursorError where
  | invalidCursor
  deriving DecidableEq, Repr

/-- Modelled from the spec:
`issue(sourceId, operationSignature, nativeToken) -> Cursor`. -/
def issue (sid sig tok : String) (now : Nat) : Cursor :=
  { sourceId := sid, opSignature := sig, nativeToken := tok,
    expiresAt := now + cursorTTL,
    tag := cursorTag sid sig tok (now + cursorTTL) }

/-- Modelled from the spec:
`resolve(cursor, sourceId, operationSignature) -> nativeToken`, failing with
`InvalidCursor` if the triple does not match, the integrity tag fails, or
the TTL has elapsed. -/
def resolve (c : Cursor) (sid sig : String) (now : Nat) :
    Except CursorError String :=
  if c.sourceId = sid ∧ c.opSignature = sig ∧
      c.tag = cursorTag c.sourceId c.opSignature c.nativeToken c.expiresAt ∧
      now ≤ c.expiresAt
  then .ok c.nativeToken
  else .error .invalidCursor

/-! ### Theorems about the rate limiters -/

theorem checkRateLimit_agree (s : RLStore) (t : DBStore) (ip : String)
    (l w n : Nat) (h : attemptsAgree (s ip) (t ip)) :
    (checkRateLimit s ip l w n).1 = (checkRateLimitDB t ip l w n).1 ∧
      attemptsAgree ((checkRateLimit s ip l w n).2 ip)
        ((checkRateLimitDB t ip l w n).2 ip) := by
  unfold attemptsAgree at h
  cases hs : s ip with
  | none =>
      cases ht : t ip with
      | none =>
          simp [checkRateLimit, checkRateLimitDB, hs, ht, attemptsAgree,
            RLStore.set, DBStore.set]
      | some a => simp [hs, ht] at h
  | some r =>
      cases ht : t ip with
      | none => simp [hs, ht] at h
      | some a =>
          obtain ⟨c, rt⟩ := r
          obtain ⟨c', e'⟩ := a
          simp [hs, ht] at h
          obtain ⟨hc, he⟩ := h
          subst hc he
          simp only [checkRateLimit, checkRateLimitDB, hs, ht]
          by_cases hexp : n > rt
          · simp [hexp, attemptsAgree, RLStore.set, DBStore.set, gt_iff_lt]
          · have hexp' : ¬ rt < n := hexp
            by_cases hlim : c ≥ l
            · simp [hexp, hexp', hlim, attemptsAgree, hs, ht]
            · simp [hexp, hexp', hlim, attemptsAgree, RLStore.set, DBStore.set]

theorem rlRun_agree (ip : String) (l w : Nat) (ts : List Nat) :
    ∀ (s : RLStore) (t : DBStore), attemptsAgree (s ip) (t ip) →
      (rlRun ip l w s ts).1 = (dbRun ip l w t ts).1 ∧
        attemptsAgree ((rlRun ip l w s ts).2 ip) ((dbRun ip l w t ts).2 ip) := by
  induction ts with
  | nil => intro s t h; simpa [rlRun, dbRun] using h
  | cons n ts ih =>
      intro s t h
      have step := checkRateLimit_agree s t ip l w n h
      have rest := ih (checkRateLimit s ip l w n).2 (checkRateLimitDB t ip l w n).2 step.2
      simp only [rlRun, dbRun]
      exact ⟨by rw [step.1, rest.1], rest.2⟩

theorem rlStore_set_apply (s : RLStore) (ip k : String) (r : RLRecord) :
    (s.set ip r) k = if k = ip then some r else s k := rfl

theorem dbStore_set_apply (s : DBStore) (ip k : String) (r : DBAttempt) :
    (s.set ip r) k = if k = ip then some r else s k := rfl

theorem windowBound_le (l : Nat) (o : Option RLRecord) (r : Nat) :
    windowBound l o r ≤ l := by
  cases o with
  | none => simp [windowBound]
  | some rec =>
      simp only [windowBound]
      split
      · omega
      · split <;> omega

theorem checkRateLimit_store_inv (s : RLStore) (ip : String) (l w n : Nat)
    (hl : 1 ≤ l)
    (hs : ∀ k rec, s k = some rec → 1 ≤ rec.count ∧ rec.count ≤ l) :
    ∀ k rec, (checkRateLimit s ip l w n).2 k = some rec →
      1 ≤ rec.count ∧ rec.count ≤ l := by
  intro k rec h
  have hset : ∀ r' : RLRecord, 1 ≤ r'.count → r'.count ≤ l →
      (s.set ip r') k = some rec → 1 ≤ rec.count ∧ rec.count ≤ l := by
    intro r' h1 h2 hh
    rw [rlStore_set_apply] at hh
    by_cases hk : k = ip
    · rw [if_pos hk] at hh
      injection hh with hh
      subst hh
      exact ⟨h1, h2⟩
    · rw [if_neg hk] at hh
      exact hs k rec hh
  rcases hsip : s ip with _ | ⟨c, rt⟩ <;>
    simp only [checkRateLimit, hsip] at h
  · exact hset _ (le_refl 1) hl h
  · have hcb := hs ip ⟨c, rt⟩ hsip
    simp only at hcb
    by_cases hexp : n > rt
    · simp [hexp] at h
      exact hset _ (le_refl 1) hl h
    · by_cases hlim : c ≥ l
      · simp [hexp, hlim] at h
        exact hs k rec h
      · simp [hexp, hlim] at h
        exact hset _ (by simp) (by simp; omega) h

theorem rlRun_store_inv (ip : String) (l w : Nat) (hl : 1 ≤ l) :
    ∀ (ts : List Nat) (s : RLStore),
      (∀ k rec, s k = some rec → 1 ≤ rec.count ∧ rec.count ≤ l) →
      ∀ k rec, (rlRun ip l w s ts).2 k = some rec →
        1 ≤ rec.count ∧ rec.count ≤ l := by
  intro ts
  induction ts with
  | nil => intro s hs k rec h; exact hs k rec h
  | cons t ts ih =>
      intro s hs k rec h
      exact ih (checkRateLimit s ip l w t).2
        (checkRateLimit_store_inv s ip l w t hl hs) k rec h

theorem rlRun_countAllowedAt_le (ip : String) (l w : Nat) (hl : 1 ≤ l) :
    ∀ (ts : List Nat) (s : RLStore),
      (∀ rec, s ip = some rec → 1 ≤ rec.count ∧ rec.count ≤ l) →
      ∀ r, countAllowedAt (rlRun ip l w s ts).1 r ≤ windowBound l (s ip) r := by
  intro ts
  induction ts with
  | nil =>
      intro s hs r
      simp only [rlRun, countAllowedAt, List.countP_nil]
      exact Nat.zero_le _
  | cons t ts ih =>
      intro s hs r
      rcases hsip : s ip with _ | ⟨c, rt⟩
      · -- no record: fresh window at t + w
        have hnew : ∀ rec, (s.set ip ⟨1, t + w⟩ : RLStore) ip = some rec →
            1 ≤ rec.count ∧ rec.count ≤ l := by
          intro rec h
          rw [rlStore_set_apply, if_pos rfl] at h
          injection h with h
          subst h
          exact ⟨le_refl 1, hl⟩
        have hrest := ih (s.set ip ⟨1, t + w⟩) hnew r
        rw [rlStore_set_apply, if_pos rfl] at hrest
        simp only [rlRun, checkRateLimit, hsip, countAllowedAt, List.countP_cons,
          windowBound] at hrest ⊢
        by_cases hr : r = t + w
        · simp [hr] at hrest ⊢
          omega
        · have hr' : ¬ (t + w = r) := fun h => hr h.symm
          simp [hr, hr'] at hrest ⊢
          split at hrest <;> omega
      · have hcb := hs ⟨c, rt⟩ hsip
        simp only at hcb
        by_cases hexp : t > rt
        · -- expired record: fresh window at t + w
          have hnew : ∀ rec, (s.set ip ⟨1, t + w⟩ : RLStore) ip = some rec →
              1 ≤ rec.count ∧ rec.count ≤ l := by
            intro rec h
            rw [rlStore_set_apply, if_pos rfl] at h
            injection h with h
            subst h
            exact ⟨le_refl 1, hl⟩
          have hrest := ih (s.set ip ⟨1, t + w⟩) hnew r
          rw [rlStore_set_apply, if_pos rfl] at hrest
          simp only [rlRun, checkRateLimit, hsip, countAllowedAt, List.countP_cons,
            windowBound] at hrest ⊢
          rw [if_pos hexp]
          by_cases hr : r = t + w
          · simp [hr, (by omega : ¬ (t + w = rt)), (by omega : rt < t + w)] at hrest ⊢
            split <;> omega
          · have hr' : ¬ (t + w = r) := fun h => hr h.symm
            simp [hr, hr'] at hrest ⊢
            by_cases hrt : r = rt
            · simp [hrt] at hrest ⊢
              split at hrest <;> omega
            · simp [hrt] at hrest ⊢
              split at hrest <;> split <;> omega
        · by_cases hlim : c ≥ l
          · -- denied: store unchanged, result not allowed
            have hrest := ih s hs r
            rw [hsip] at hrest
            simp only [rlRun, checkRateLimit, hsip, countAllowedAt, List.countP_cons,
              windowBound] at hrest ⊢
            rw [if_neg hexp, if_pos hlim]
            by_cases hrt : r = rt
            · simp [hrt] at hrest ⊢
              omega
            · simp [hrt] at hrest ⊢
              split at hrest <;> split <;> omega
          · -- increment within the window
            have hnew : ∀ rec, (s.set ip ⟨c + 1, rt⟩ : RLStore) ip = some rec →
                1 ≤ rec.count ∧ rec.count ≤ l := by
              intro rec h
              rw [rlStore_set_apply, if_pos rfl] at h
              injection h with h
              subst h
              exact ⟨by simp, by simp; omega⟩
            have hrest := ih (s.set ip ⟨c + 1, rt⟩) hnew r
            rw [rlStore_set_apply, if_pos rfl] at hrest
            simp only [rlRun, checkRateLimit, hsip, countAllowedAt, List.countP_cons,
              windowBound] at hrest ⊢
            rw [if_neg hexp, if_neg hlim]
            by_cases hr : r = rt
            · simp [hr] at hrest ⊢
              omega
            · have hr' : ¬ (rt = r) := fun h => hr h.symm
              simp [hr, hr'] at hrest ⊢
              split at hrest <;> split <;> omega

theorem checkRateLimit_denied_store (s : RLStore) (ip : String) (l w n : Nat)
    (h : (checkRateLimit s ip l w n).1.allowed = false) :
    (checkRateLimit s ip l w n).2 = s := by
  rcases hsip : s ip with _ | ⟨c, rt⟩ <;>
    simp only [checkRateLimit, hsip] at h ⊢
  · simp at h
  · by_cases hexp : n > rt
    · rw [if_pos hexp] at h; simp at h
    · rw [if_neg hexp] at h ⊢
      by_cases hlim : c ≥ l
      · rw [if_pos hlim]
      · rw [if_neg hlim] at h; simp at h

theorem checkRateLimitDB_denied_store (t : DBStore) (ip : String) (l w n : Nat)
    (h : (checkRateLimitDB t ip l w n).1.allowed = false) :
    (checkRateLimitDB t ip l w n).2 = t := by
  rcases htip : t ip with _ | ⟨c, e⟩ <;>
    simp only [checkRateLimitDB, htip] at h ⊢
  · simp at h
  · by_cases hexp : e < n
    · rw [if_pos hexp] at h; simp at h
    · rw [if_neg hexp] at h ⊢
      by_cases hlim : c ≥ l
      · rw [if_pos hlim]
      · rw [if_neg hlim] at h; simp at h

theorem rateLimitStore0_inv (l : Nat) :
    ∀ k rec, rateLimitStore0 k = some rec → 1 ≤ rec.count ∧ rec.count ≤ l := by
  intro k rec h
  simp [rateLimitStore0] at h

theorem dbRun_countAllowedAt_le (ip : String) (l w : Nat) (hl : 1 ≤ l)
    (ts : List Nat) (r : Nat) :
    countAllowedAt (dbRun ip l w dbStore0 ts).1 r ≤ l := by
  have hag := (rlRun_agree ip l w ts rateLimitStore0 dbStore0 rfl).1
  rw [← hag]
  have hb := rlRun_countAllowedAt_le ip l w hl ts rateLimitStore0
    (fun rec h => (rateLimitStore0_inv l ip rec h)) r
  exact le_trans hb (windowBound_le l _ r)

theorem dbRun_store_inv_ip (ip : String) (l w : Nat) (hl : 1 ≤ l) (ts : List Nat) :
    ∀ rec, (dbRun ip l w dbStore0 ts).2 ip = some rec →
      1 ≤ rec.count ∧ rec.count ≤ l := by
  intro rec h
  have hag := (rlRun_agree ip l w ts rateLimitStore0 dbStore0 rfl).2
  unfold attemptsAgree at hag
  rw [h] at hag
  rcases hrl : (rlRun ip l w rateLimitStore0 ts).2 ip with _ | r'
  · rw [hrl] at hag; simp at hag
  · rw [hrl] at hag
    simp at hag
    have hb := rlRun_store_inv ip l w hl ts rateLimitStore0
      (rateLimitStore0_inv l) ip r' hrl
    omega

/-- One call of `checkRateLimit` reads and writes only the entry for its own
IP: stores that agree at `ip` produce the same result and stay in agreement. -/
theorem checkRateLimit_local (s1 s2 : RLStore) (ip : String) (l w n : Nat)
    (h : s1 ip = s2 ip) :
    (checkRateLimit s1 ip l w n).1 = (checkRateLimit s2 ip l w n).1 ∧
      (checkRateLimit s1 ip l w n).2 ip = (checkRateLimit s2 ip l w n).2 ip := by
  rcases hs2 : s2 ip with _ | ⟨c, rt⟩ <;> rw [hs2] at h <;>
    simp only [checkRateLimit, h, hs2]
  · simp [rlStore_set_apply]
  · by_cases hexp : n > rt
    · simp [hexp, rlStore_set_apply]
    · by_cases hlim : c ≥ l
      · simp [hexp, hlim, h, hs2]
      · simp [hexp, hlim, rlStore_set_apply]

theorem checkRateLimitDB_local (t1 t2 : DBStore) (ip : String) (l w n : Nat)
    (h : t1 ip = t2 ip) :
    (checkRateLimitDB t1 ip l w n).1 = (checkRateLimitDB t2 ip l w n).1 ∧
      (checkRateLimitDB t1 ip l w n).2 ip = (checkRateLimitDB t2 ip l w n).2 ip := by
  rcases ht2 : t2 ip with _ | ⟨c, e⟩ <;> rw [ht2] at h <;>
    simp only [checkRateLimitDB, h, ht2]
  · simp [dbStore_set_apply]
  · by_cases hexp : e < n
    · simp [hexp, dbStore_set_apply]
    · by_cases hlim : c ≥ l
      · simp [hexp, hlim, h, ht2]
      · simp [hexp, hlim, dbStore_set_apply]

/-- Runs from a cleaned store and from the original store produce the same
results, provided every request comes at or after the cleanup time: the
cleaned-away entries are exactly those that lazy expiry would also refresh. -/
theorem rlRun_cleanup_rel (ip : String) (l w tc : Nat) :
    ∀ (ts : List Nat), (∀ t ∈ ts, tc ≤ t) →
      ∀ (s1 s2 : RLStore),
        (s1 ip = s2 ip ∨ ∃ r, s2 ip = some r ∧ r.resetTime < tc ∧ s1 ip = none) →
        (rlRun ip l w s1 ts).1 = (rlRun ip l w s2 ts).1 := by
  intro ts
  induction ts with
  | nil => intro _ s1 s2 _; rfl
  | cons t ts ih =>
      intro hts s1 s2 hrel
      have htc : tc ≤ t := hts t (List.mem_cons_self t ts)
      have hts' : ∀ t' ∈ ts, tc ≤ t' := fun t' ht' => hts t' (List.mem_cons_of_mem t ht')
      rcases hrel with h | ⟨r, hs2, hexp, hs1⟩
      · have step := checkRateLimit_local s1 s2 ip l w t h
        simp only [rlRun]
        rw [step.1, ih hts' _ _ (Or.inl step.2)]
      · have hgt : t > r.resetTime := by omega
        have htail := ih hts' ((s1.set ip ⟨1, t + w⟩ : RLStore))
          ((s2.set ip ⟨1, t + w⟩ : RLStore))
          (Or.inl (by rw [rlStore_set_apply, if_pos rfl, rlStore_set_apply, if_pos rfl]))
        simp only [rlRun, checkRateLimit, hs1, hs2]
        rw [if_pos hgt]
        exact congrArg₂ List.cons rfl htail

/-- C1: As invoked by their POST handlers (limit 3 / 60000 ms vs. limit 3 /
120000 ms) the two rate limiters give different allow/deny decisions for the
timed sequence 0, 0, 0, 70000 ms from one IP; but with identical
`(identifier, limit, windowMs)` parameters, the same clock, and empty initial
stores, `checkRateLimit` and `checkRateLimitDB` compute identical
`(allowed, remaining, resetTime)` results for every sequential request
sequence. -/
theorem c1_rate_limiter_divergence_and_equivalence :
    ((rlRun "ip" 3 60000 rateLimitStore0 [0, 0, 0, 70000]).1.map (fun r => r.allowed) ≠
        (dbRun "ip" 3 120000 dbStore0 [0, 0, 0, 70000]).1.map (fun r => r.allowed)) ∧
      ∀ (ip : String) (limit windowMs : Nat) (ts : List Nat),
        (rlRun ip limit windowMs rateLimitStore0 ts).1 =
          (dbRun ip limit windowMs dbStore0 ts).1 := by
  constructor
  · decide
  · intro ip limit windowMs ts
    exact (rlRun_agree ip limit windowMs ts rateLimitStore0 dbStore0 rfl).1

/-- C2: Admission bound.  For every IP and any sequence of calls to
`checkRateLimit` (or `checkRateLimitDB`) with a fixed limit `l ≥ 1` and a
fixed window `w`, at most `l` calls belonging to a single window (the calls
whose result carries that window's `resetTime`) return `allowed = true`; the
stored per-IP count is always between `1` and `l`; and the denied branch
never changes the store. -/
theorem c2_admission_bound (ip : String) (l w : Nat) (hl : 1 ≤ l) :
    (∀ (ts : List Nat) (r : Nat),
        countAllowedAt (rlRun ip l w rateLimitStore0 ts).1 r ≤ l ∧
        countAllowedAt (dbRun ip l w dbStore0 ts).1 r ≤ l) ∧
    (∀ (ts : List Nat) (rec : RLRecord),
        (rlRun ip l w rateLimitStore0 ts).2 ip = some rec →
          1 ≤ rec.count ∧ rec.count ≤ l) ∧
    (∀ (ts : List Nat) (rec : DBAttempt),
        (dbRun ip l w dbStore0 ts).2 ip = some rec →
          1 ≤ rec.count ∧ rec.count ≤ l) ∧
    (∀ (s : RLStore) (n : Nat), (checkRateLimit s ip l w n).1.allowed = false →
        (checkRateLimit s ip l w n).2 = s) ∧
    (∀ (t : DBStore) (n : Nat), (checkRateLimitDB t ip l w n).1.allowed = false →
        (checkRateLimitDB t ip l w n).2 = t) := by
  refine ⟨fun ts r => ⟨?_, ?_⟩, fun ts rec h => ?_, fun ts rec h => ?_,
    fun s n h => ?_, fun t n h => ?_⟩
  · exact le_trans
      (rlRun_countAllowedAt_le ip l w hl ts rateLimitStore0
        (rateLimitStore0_inv l ip) r)
      (windowBound_le l _ r)
  · exact dbRun_countAllowedAt_le ip l w hl ts r
  · exact rlRun_store_inv ip l w hl ts rateLimitStore0 (rateLimitStore0_inv l) ip rec h
  · exact dbRun_store_inv_ip ip l w hl ts rec h
  · exact checkRateLimit_denied_store s ip l w n h
  · exact checkRateLimitDB_denied_store t ip l w n h

theorem c2_admission_bound_witness :
    1 ≤ 3 ∧ countAllowedAt (rlRun "a" 3 60000 rateLimitStore0 [0, 1, 2, 3]).1 60000 ≤ 3 :=
  ⟨by decide, ((c2_admission_bound "a" 3 60000 (by decide)).1 [0, 1, 2, 3] 60000).1⟩

/-- C4: Lazy expiry on access.  A missing or expired record makes
`checkRateLimit` allow the request and start a fresh window with count `1`,
expiry `now + windowMs` and `remaining = limit - 1` (in particular an expired
record never causes a denial); the periodic cleanup deletes exactly the
entries with `now > resetTime`; and running the limiter over any subsequent
requests (timestamps `≥` the cleanup time) from a cleaned store yields the
same outcomes as from the uncleaned store. -/
theorem c4_lazy_expiry (s : RLStore) (ip : String) (l w now : Nat) :
    ((s ip = none ∨ ∃ r, s ip = some r ∧ r.resetTime < now) →
        checkRateLimit s ip l w now =
          ({ allowed := true, remaining := (l : Int) - 1, resetTime := now + w },
            s.set ip { count := 1, resetTime := now + w })) ∧
    (∀ k, (cleanupExpired s now k = none ↔
            s k = none ∨ ∃ r, s k = some r ∧ r.resetTime < now) ∧
          ∀ r, s k = some r → ¬ r.resetTime < now → cleanupExpired s now k = some r) ∧
    (∀ (tc : Nat) (ts : List Nat), (∀ t ∈ ts, tc ≤ t) →
        (rlRun ip l w (cleanupExpired s tc) ts).1 = (rlRun ip l w s ts).1) := by
  refine ⟨?_, ?_, ?_⟩
  · rintro (h | ⟨r, hr, hlt⟩)
    · simp [checkRateLimit, h]
    · simp only [checkRateLimit, hr]
      rw [if_pos (show now > r.resetTime from hlt)]
  · intro k
    constructor
    · rcases hk : s k with _ | r
      · simp [cleanupExpired, hk]
      · simp only [cleanupExpired, hk]
        by_cases hgt : now > r.resetTime
        · simp [hgt]
        · simp [hgt]
    · intro r hk hnl
      simp [cleanupExpired, hk]
      omega
  · intro tc ts hts
    refine rlRun_cleanup_rel ip l w tc ts hts _ _ ?_
    rcases hsi : s ip with _ | r
    · exact Or.inl (by simp [cleanupExpired, hsi])
    · by_cases hgt : tc > r.resetTime
      · exact Or.inr ⟨r, rfl, hgt, by simp [cleanupExpired, hsi, hgt]⟩
      · exact Or.inl (by simp [cleanupExpired, hsi, hgt])

theorem c4_lazy_expiry_witness :
    (rateLimitStore0 "a" = none ∨
        ∃ r, rateLimitStore0 "a" = some r ∧ r.resetTime < 5) ∧
      checkRateLimit rateLimitStore0 "a" 3 60000 5 =
        ({ allowed := true, remaining := (3 : Int) - 1, resetTime := 5 + 60000 },
          rateLimitStore0.set "a" { count := 1, resetTime := 5 + 60000 }) :=
  ⟨Or.inl rfl, (c4_lazy_expiry rateLimitStore0 "a" 3 60000 5).1 (Or.inl rfl)⟩

/-- C5: The in-memory limiter does not survive restarts: its store is empty
at module initialization, so the first `checkRateLimit` call for every IP
after a restart is allowed, whatever happened before; `checkRateLimitDB`'s
decision (and its update of the row for `ip`) depends only on the persisted
`rate_limit_attempts` row for `ip`, so its state survives a restart. -/
theorem c5_restart_semantics :
    (∀ ip : String, rateLimitStore0 ip = none) ∧
    (∀ (ip : String) (l w now : Nat),
        (checkRateLimit rateLimitStore0 ip l w now).1.allowed = true) ∧
    ∀ (t1 t2 : DBStore) (ip : String) (l w now : Nat), t1 ip = t2 ip →
      (checkRateLimitDB t1 ip l w now).1 = (checkRateLimitDB t2 ip l w now).1 ∧
        (checkRateLimitDB t1 ip l w now).2 ip = (checkRateLimitDB t2 ip l w now).2 ip := by
  refine ⟨fun _ => rfl, fun ip l w now => ?_, fun t1 t2 ip l w now h => ?_⟩
  · simp [checkRateLimit, rateLimitStore0]
  · exact checkRateLimitDB_local t1 t2 ip l w now h

/-! ### String lemmas: `toLowerCase` and `trim` -/

theorem char_eq_iff_toNat (a b : Char) : a = b ↔ a.toNat = b.toNat :=
  ⟨fun h => by rw [h], fun h => Char.ext (UInt32.ext_iff.mpr h)⟩

theorem jsToLowerChar_toNat (c : Char) :
    (jsToLowerChar c).toNat =
      if 65 ≤ c.toNat ∧ c.toNat ≤ 90 then c.toNat + 32 else c.toNat := by
  by_cases h : 65 ≤ c.toNat ∧ c.toNat ≤ 90
  · simp only [jsToLowerChar, dif_pos h, if_pos h]
    rfl
  · simp only [jsToLowerChar, dif_neg h, if_neg h]

theorem jsToLowerChar_idem (c : Char) :
    jsToLowerChar (jsToLowerChar c) = jsToLowerChar c := by
  apply (char_eq_iff_toNat _ _).mpr
  rw [jsToLowerChar_toNat, jsToLowerChar_toNat]
  split_ifs <;> omega

theorem isJsWs_jsToLowerChar (c : Char) : isJsWs (jsToLowerChar c) = isJsWs c := by
  unfold isJsWs
  rw [decide_eq_decide, jsToLowerChar_toNat]
  by_cases h : 65 ≤ c.toNat ∧ c.toNat ≤ 90
  · rw [if_pos h]; omega
  · rw [if_neg h]

theorem map_dropWhile_comm (l : List Char) :
    List.map jsToLowerChar (List.dropWhile isJsWs l) =
      List.dropWhile isJsWs (List.map jsToLowerChar l) := by
  have hws : isJsWs ∘ jsToLowerChar = isJsWs := by
    funext c
    exact isJsWs_jsToLowerChar c
  rw [List.dropWhile_map, hws]

theorem jsToLower_jsTrim (x : List Char) :
    jsToLower (jsTrim x) = jsTrim (jsToLower x) := by
  unfold jsToLower jsTrim
  rw [List.map_reverse, map_dropWhile_comm, List.map_reverse, map_dropWhile_comm]

theorem jsToLower_idem (x : List Char) : jsToLower (jsToLower x) = jsToLower x := by
  have h : jsToLowerChar ∘ jsToLowerChar = jsToLowerChar := by
    funext c
    exact jsToLowerChar_idem c
  unfold jsToLower
  rw [List.map_map, h]

theorem dropWhile_idem (p : Char → Bool) (l : List Char) :
    List.dropWhile p (List.dropWhile p l) = List.dropWhile p l := by
  induction l with
  | nil => rfl
  | cons a l ih =>
      by_cases h : p a
      · simp [List.dropWhile_cons, h, ih]
      · simp [List.dropWhile_cons, h]

theorem dropWhile_eq_self_of_prefix (p : Char → Bool) :
    ∀ (x y : List Char), List.dropWhile p x = x → y <+: x →
      List.dropWhile p y = y := by
  intro x y hx hpre
  cases y with
  | nil => rfl
  | cons a y' =>
      obtain ⟨t, ht⟩ := hpre
      have hpa : p a = false := by
        by_contra hpa
        have hpa' : p a = true := by revert hpa; cases p a <;> simp
        rw [← ht, List.cons_append, List.dropWhile_cons, if_pos hpa'] at hx
        have hlen := congrArg List.length hx
        have hle : (List.dropWhile p (y' ++ t)).length ≤ (y' ++ t).length :=
          (List.dropWhile_suffix p).length_le
        simp at hlen hle
        omega
      rw [List.dropWhile_cons, hpa]
      simp

theorem jsTrim_idem (x : List Char) : jsTrim (jsTrim x) = jsTrim x := by
  have hA : List.dropWhile isJsWs (List.dropWhile isJsWs x) = List.dropWhile isJsWs x :=
    dropWhile_idem isJsWs x
  have hBpre : (List.dropWhile isJsWs (List.dropWhile isJsWs x).reverse).reverse <+:
      List.dropWhile isJsWs x := by
    have h := List.reverse_prefix.mpr
      (List.dropWhile_suffix (l := (List.dropWhile isJsWs x).reverse) isJsWs)
    rwa [List.reverse_reverse] at h
  have hdB := dropWhile_eq_self_of_prefix isJsWs _ _ hA hBpre
  unfold jsTrim
  rw [hdB, List.reverse_reverse, dropWhile_idem]

theorem normEmail_idem (e : List Char) : normEmail (normEmail e) = normEmail e := by
  unfold normEmail
  rw [jsToLower_jsTrim, jsToLower_idem, jsTrim_idem]

theorem c5_restart_semantics_witness :
    dbStore0 "a" = dbStore0 "a" ∧
      (checkRateLimitDB dbStore0 "a" 3 120000 0).1 =
        (checkRateLimitDB dbStore0 "a" 3 120000 0).1 :=
  ⟨rfl, (c5_restart_semantics.2.2 dbStore0 dbStore0 "a" 3 120000 0 rfl).1⟩

/-! ### Denial-branch facts and the remaining claims -/

theorem checkRateLimit_denied_resetTime (s : RLStore) (ip : String) (l w n : Nat)
    (h : (checkRateLimit s ip l w n).1.allowed = false) :
    n ≤ (checkRateLimit s ip l w n).1.resetTime := by
  rcases hsip : s ip with _ | ⟨c, rt⟩ <;>
    simp only [checkRateLimit, hsip] at h ⊢
  · simp at h
  · by_cases hexp : n > rt
    · simp [hexp] at h
    · by_cases hlim : c ≥ l
      · simp [hexp, hlim]
        omega
      · simp [hexp, hlim] at h

/-- C10: Cursor round-trip (Pagination Cursor Manager, modelled from the
spec): `issue` then `resolve` with the same `(sourceId, operationSignature)`
within the TTL returns the original native token, and resolving with a
different source id or a different operation signature fails with
`InvalidCursor`. -/
theorem c10_cursor_roundtrip (sid sig tok : String) (t now : Nat)
    (httl : now ≤ t + cursorTTL) :
    resolve (issue sid sig tok t) sid sig now = .ok tok ∧
      (∀ sid2, sid2 ≠ sid →
        resolve (issue sid sig tok t) sid2 sig now = .error .invalidCursor) ∧
      (∀ sig2, sig2 ≠ sig →
        resolve (issue sid sig tok t) sid sig2 now = .error .invalidCursor) := by
  refine ⟨?_, fun sid2 h2 => ?_, fun sig2 h2 => ?_⟩
  · unfold resolve issue
    rw [if_pos ⟨rfl, rfl, rfl, httl⟩]
  · unfold resolve issue
    rw [if_neg (fun hc => h2 hc.1.symm)]
  · unfold resolve issue
    rw [if_neg (fun hc => h2 hc.2.1.symm)]

theorem c10_cursor_roundtrip_witness :
    (0 : Nat) ≤ 0 + cursorTTL ∧
      resolve (issue "src1" "list:/docs" "page2" 0) "src1" "list:/docs" 0 =
        .ok "page2" :=
  ⟨Nat.zero_le _,
    (c10_cursor_roundtrip "src1" "list:/docs" "page2" 0 0 (Nat.zero_le _)).1⟩

/-- C6: Session gating: for every request whose pathname starts with
`"/app"`, the middleware redirects to `"/"` on the request's origin when no
session cookie is present, and returns `NextResponse.next()` when one is. -/
theorem c6_session_gating (req : MwRequest)
    (happ : List.isPrefixOf ("/app".data) req.pathname = true) :
    (req.sessionCookie = none →
        middleware req = .redirect (req.urlOrigin ++ "/".data)) ∧
      ∀ c, req.sessionCookie = some c → middleware req = .next := by
  have hnw : List.isPrefixOf ("/api/waitlist".data) req.pathname = false := by
    obtain ⟨t, ht⟩ := List.isPrefixOf_iff_prefix.mp happ
    have h4 : "/app".data = ['/', 'a', 'p', 'p'] := rfl
    have h13 : "/api/waitlist".data =
        ['/', 'a', 'p', 'i', '/', 'w', 'a', 'i', 't', 'l', 'i', 's', 't'] := rfl
    rw [← ht, h4, h13]
    simp [List.isPrefixOf, List.cons_append,
      show (('i' : Char) == 'p') = false by decide]
  constructor
  · intro hc
    simp [middleware, hnw, middlewareAuthGate, happ, hc]
  · intro c hc
    simp [middleware, hnw, middlewareAuthGate, happ, hc]

theorem c6_session_gating_witness :
    List.isPrefixOf ("/app".data)
        (MwRequest.mk ("/app".data) ("http://localhost:3000".data) none true).pathname
      = true ∧
      middleware (MwRequest.mk ("/app".data) ("http://localhost:3000".data) none true) =
        .redirect ("http://localhost:3000".data ++ "/".data) :=
  ⟨by decide,
    (c6_session_gating
      (MwRequest.mk ("/app".data) ("http://localhost:3000".data) none true)
      (by decide)).1 rfl⟩

/-- C3: Throttled denial is atomic and precedes all other work: when the
per-IP limit denies, the handler answers 429 with `success = false` and
`retryAfter` the ceiling of the seconds remaining until the window reset
(characterized arithmetically below), the body is never read, the waitlist
table is untouched and the rate-limit store is unchanged; the database
variant behaves identically (on a healthy database), and the middleware
variant answers 429 with a `Retry-After` header of `300`. -/
theorem c3_throttled_denial (zodBase : List Char → Bool) (req : PostReq)
    (dbError : Bool) (now : Nat) (newId : String) :
    (∀ st : PostState,
      (checkRateLimit st.rl (ipOf req) 3 60000 now).1.allowed = false →
        POST zodBase req dbError now newId st =
          ({ status := 429, success := false, error := some (.msg tooManyMsg),
             retryAfter := some
               (((checkRateLimit st.rl (ipOf req) 3 60000 now).1.resetTime
                  - now + 999) / 1000) },
           st, false) ∧
        (let d := (checkRateLimit st.rl (ipOf req) 3 60000 now).1.resetTime - now
         d ≤ 1000 * ((d + 999) / 1000) ∧ 1000 * ((d + 999) / 1000) < d + 1000)) ∧
    (∀ st : DbPostState, dbError = false →
      (checkRateLimitDB st.rl (ipOf req) 3 120000 now).1.allowed = false →
        DbPOST zodBase req dbError now newId st =
          ({ status := 429, success := false, error := some (.msg tooManyMsg),
             retryAfter := some
               (((checkRateLimitDB st.rl (ipOf req) 3 120000 now).1.resetTime
                  - now + 999) / 1000) },
           st, false)) ∧
    (∀ mreq : MwRequest,
      List.isPrefixOf ("/api/waitlist".data) mreq.pathname = true →
      mreq.limiterOk = false →
        middleware mreq = .tooManyRequests 429 ("300".data)) := by
  refine ⟨fun st h => ⟨?_, ?_⟩, fun st hdb h => ?_, fun mreq hp hl => ?_⟩
  · have hst := checkRateLimit_denied_store st.rl (ipOf req) 3 60000 now h
    simp only [POST, h, Bool.not_false, if_pos]
    rw [hst]
  · omega
  · have hst := checkRateLimitDB_denied_store st.rl (ipOf req) 3 120000 now h
    subst hdb
    simp only [DbPOST, Bool.false_eq_true, if_false, h, Bool.not_false, if_pos]
    rw [hst]
  · simp [middleware, hp, hl]

theorem c3_throttled_denial_witness :
    (checkRateLimit
        (PostState.mk (fun _ => some (RLRecord.mk 3 100)) []).rl
        (ipOf (PostReq.mk none none .invalidJson)) 3 60000 50).1.allowed = false ∧
      POST (fun _ => true) (PostReq.mk none none .invalidJson) false 50 "id"
          (PostState.mk (fun _ => some (RLRecord.mk 3 100)) []) =
        ({ status := 429, success := false, error := some (.msg tooManyMsg),
           retryAfter := some
             (((checkRateLimit
                  (PostState.mk (fun _ => some (RLRecord.mk 3 100)) []).rl
                  (ipOf (PostReq.mk none none .invalidJson)) 3 60000 50).1.resetTime
                - 50 + 999) / 1000) },
         PostState.mk (fun _ => some (RLRecord.mk 3 100)) [], false) :=
  ⟨by decide,
    ((c3_throttled_denial (fun _ => true) (PostReq.mk none none .invalidJson)
        false 50 "id").1
      (PostState.mk (fun _ => some (RLRecord.mk 3 100)) []) (by decide)).1⟩

theorem POST_nonsuccess (zodBase : List Char → Bool) (req : PostReq)
    (dbError : Bool) (now : Nat) (newId : String) (st : PostState)
    (h : (POST zodBase req dbError now newId st).1.status ≠ 201) :
    (POST zodBase req dbError now newId st).1.success = false := by
  revert h
  simp only [POST]
  repeat' split
  all_goals intro h
  all_goals first
    | rfl
    | exact absurd rfl h

theorem DbPOST_nonsuccess (zodBase : List Char → Bool) (req : PostReq)
    (dbError : Bool) (now : Nat) (newId : String) (st : DbPostState)
    (h : (DbPOST zodBase req dbError now newId st).1.status ≠ 201) :
    (DbPOST zodBase req dbError now newId st).1.success = false := by
  revert h
  simp only [DbPOST]
  repeat' split
  all_goals intro h
  all_goals first
    | rfl
    | exact absurd rfl h

/-- C9: The handlers never propagate an exception: an error thrown inside
them (unparseable JSON body; database failure) is caught and answered with
status 500 and body `success = false`, `error = "Internal server error"`;
and every response with a status other than 201 carries `success = false`. -/
theorem c9_no_exception_escape (zodBase : List Char → Bool) (req : PostReq)
    (dbError : Bool) (now : Nat) (newId : String) :
    (∀ st : PostState,
      ((POST zodBase req dbError now newId st).1.status ≠ 201 →
        (POST zodBase req dbError now newId st).1.success = false) ∧
      ((checkRateLimit st.rl (ipOf req) 3 60000 now).1.allowed = true →
        req.body = .invalidJson →
        (POST zodBase req dbError now newId st).1 =
          { status := 500, success := false,
            error := some (.msg internalErrorMsg) }) ∧
      (∀ e, (checkRateLimit st.rl (ipOf req) 3 60000 now).1.allowed = true →
        req.body = .withEmail e → emailAccepted zodBase e = true →
        dbError = true →
        (POST zodBase req dbError now newId st).1 =
          { status := 500, success := false,
            error := some (.msg internalErrorMsg) })) ∧
    (∀ st : DbPostState,
      ((DbPOST zodBase req dbError now newId st).1.status ≠ 201 →
        (DbPOST zodBase req dbError now newId st).1.success = false) ∧
      (dbError = true →
        (DbPOST zodBase req dbError now newId st).1 =
          { status := 500, success := false,
            error := some (.msg internalErrorMsg) }) ∧
      (dbError = false →
        (checkRateLimitDB st.rl (ipOf req) 3 120000 now).1.allowed = true →
        req.body = .invalidJson →
        (DbPOST zodBase req dbError now newId st).1 =
          { status := 500, success := false,
            error := some (.msg internalErrorMsg) })) := by
  refine ⟨fun st => ⟨POST_nonsuccess zodBase req dbError now newId st, ?_, ?_⟩,
    fun st => ⟨DbPOST_nonsuccess zodBase req dbError now newId st, ?_, ?_⟩⟩
  · intro hall hbody
    simp [POST, hbody, hall]
  · intro e hall hbody hacc hdb
    unfold emailAccepted at hacc
    simp [POST, hbody, hall, hacc, hdb]
  · intro hdb
    simp [DbPOST, hdb]
  · intro hdb hall hbody
    subst hdb
    simp [DbPOST, hbody, hall]

theorem c9_no_exception_escape_witness :
    (checkRateLimit (PostState.mk rateLimitStore0 []).rl
        (ipOf (PostReq.mk none none .invalidJson)) 3 60000 0).1.allowed = true ∧
      (POST (fun _ => true) (PostReq.mk none none .invalidJson) false 0 "id"
          (PostState.mk rateLimitStore0 [])).1 =
        { status := 500, success := false,
          error := some (.msg internalErrorMsg) } :=
  ⟨by decide,
    ((c9_no_exception_escape (fun _ => true) (PostReq.mk none none .invalidJson)
        false 0 "id").1 (PostState.mk rateLimitStore0 [])).2.1 (by decide) rfl⟩

/-! ### Waitlist uniqueness (C7) -/

theorem POST_wl_changed (zodBase : List Char → Bool) (req : PostReq)
    (dbError : Bool) (now : Nat) (newId : String) (st : PostState)
    (e : List Char) (hbody : req.body = .withEmail e)
    (hch : (POST zodBase req dbError now newId st).2.1.wl ≠ st.wl) :
    (POST zodBase req dbError now newId st).2.1.wl =
        st.wl ++ [{ id := newId, email := normEmail e }] ∧
      (POST zodBase req dbError now newId st).1.status = 201 ∧
      st.wl.find? (fun row => row.email == normEmail e) = none := by
  revert hch
  simp only [POST, hbody]
  repeat' split
  all_goals intro hch
  all_goals first
    | exact absurd rfl hch
    | exact ⟨rfl, rfl, by assumption⟩

theorem DbPOST_wl_changed (zodBase : List Char → Bool) (req : PostReq)
    (dbError : Bool) (now : Nat) (newId : String) (st : DbPostState)
    (e : List Char) (hbody : req.body = .withEmail e)
    (hch : (DbPOST zodBase req dbError now newId st).2.1.wl ≠ st.wl) :
    (DbPOST zodBase req dbError now newId st).2.1.wl =
        st.wl ++ [{ id := newId, email := normEmail e }] ∧
      (DbPOST zodBase req dbError now newId st).1.status = 201 ∧
      st.wl.find? (fun row => row.email == normEmail e) = none := by
  revert hch
  simp only [DbPOST, hbody]
  repeat' split
  all_goals intro hch
  all_goals first
    | exact absurd rfl hch
    | exact ⟨rfl, rfl, by assumption⟩

theorem wlInv_insert (wl : List WaitlistRow) (newId : String) (e : List Char)
    (h : WlInv wl)
    (hnone : wl.find? (fun row => row.email == normEmail e) = none) :
    WlInv (wl ++ [{ id := newId, email := normEmail e }]) := by
  obtain ⟨hfix, hpw⟩ := h
  have hall : ∀ row ∈ wl, row.email ≠ normEmail e := by
    intro row hrow
    have hne := List.find?_eq_none.mp hnone row hrow
    simpa [beq_iff_eq] using hne
  constructor
  · intro row hrow
    rcases List.mem_append.mp hrow with h1 | h1
    · exact hfix row h1
    · rw [List.mem_singleton] at h1
      subst h1
      exact normEmail_idem e
  · rw [List.pairwise_append]
    refine ⟨hpw, List.pairwise_singleton _ _, ?_⟩
    intro a ha b hb
    rw [List.mem_singleton] at hb
    subst hb
    exact hall a ha

theorem POST_wl_inv (zodBase : List Char → Bool) (req : PostReq)
    (dbError : Bool) (now : Nat) (newId : String) (st : PostState)
    (h : WlInv st.wl) :
    WlInv (POST zodBase req dbError now newId st).2.1.wl := by
  by_cases hch : (POST zodBase req dbError now newId st).2.1.wl = st.wl
  · rw [hch]; exact h
  · rcases hbody : req.body with _ | _ | e
    · exfalso
      apply hch
      simp only [POST, hbody]
      repeat' split
      all_goals rfl
    · exfalso
      apply hch
      simp only [POST, hbody]
      repeat' split
      all_goals rfl
    · obtain ⟨happ, _, hnone⟩ :=
        POST_wl_changed zodBase req dbError now newId st e hbody hch
      rw [happ]
      exact wlInv_insert st.wl newId e h hnone

theorem DbPOST_wl_inv (zodBase : List Char → Bool) (req : PostReq)
    (dbError : Bool) (now : Nat) (newId : String) (st : DbPostState)
    (h : WlInv st.wl) :
    WlInv (DbPOST zodBase req dbError now newId st).2.1.wl := by
  by_cases hch : (DbPOST zodBase req dbError now newId st).2.1.wl = st.wl
  · rw [hch]; exact h
  · rcases hbody : req.body with _ | _ | e
    · exfalso
      apply hch
      simp only [DbPOST, hbody]
      repeat' split
      all_goals rfl
    · exfalso
      apply hch
      simp only [DbPOST, hbody]
      repeat' split
      all_goals rfl
    · obtain ⟨happ, _, hnone⟩ :=
        DbPOST_wl_changed zodBase req dbError now newId st e hbody hch
      rw [happ]
      exact wlInv_insert st.wl newId e h hnone

theorem postRun_wl_inv (zodBase : List Char → Bool) :
    ∀ (calls : List PostCall) (st : PostState),
      WlInv st.wl → WlInv (postRun zodBase st calls).wl := by
  intro calls
  induction calls with
  | nil => intro st h; exact h
  | cons c cs ih =>
      intro st h
      exact ih _ (POST_wl_inv zodBase c.req c.dbError c.now c.newId st h)

theorem dbPostRun_wl_inv (zodBase : List Char → Bool) :
    ∀ (calls : List PostCall) (st : DbPostState),
      WlInv st.wl → WlInv (dbPostRun zodBase st calls).wl := by
  intro calls
  induction calls with
  | nil => intro st h; exact h
  | cons c cs ih =>
      intro st h
      exact ih _ (DbPOST_wl_inv zodBase c.req c.dbError c.now c.newId st h)

theorem WlInv.pairwise_norm {wl : List WaitlistRow} (h : WlInv wl) :
    wl.Pairwise (fun r1 r2 => normEmail r1.email ≠ normEmail r2.email) := by
  obtain ⟨hfix, hpw⟩ := h
  refine List.Pairwise.imp_of_mem ?_ hpw
  intro a b ha hb hne
  rw [hfix a ha, hfix b hb]
  exact hne

theorem wlInv_nil : WlInv [] := ⟨by simp, List.Pairwise.nil⟩

/-- C7: Waitlist normalization and uniqueness: if a `POST` changes the
waitlist table, it appends exactly one row whose email is the submitted
email lowercased and trimmed, with status 201, and only when no stored row
already equals that normalized email; a duplicate answers 400 with "This
email is already on the waitlist" and leaves the table unchanged; hence
under sequential execution from an empty table (for either handler) the
table never holds two rows with the same normalized email. -/
theorem c7_waitlist_uniqueness (zodBase : List Char → Bool) :
    (∀ (req : PostReq) (dbError : Bool) (now : Nat) (newId : String)
        (st : PostState) (e : List Char),
      req.body = .withEmail e →
      ((POST zodBase req dbError now newId st).2.1.wl ≠ st.wl →
        (POST zodBase req dbError now newId st).2.1.wl =
            st.wl ++ [{ id := newId, email := normEmail e }] ∧
          (POST zodBase req dbError now newId st).1.status = 201 ∧
          st.wl.find? (fun row => row.email == normEmail e) = none) ∧
      (∀ row, st.wl.find? (fun row => row.email == normEmail e) = some row →
        (checkRateLimit st.rl (ipOf req) 3 60000 now).1.allowed = true →
        emailAccepted zodBase e = true → dbError = false →
        (POST zodBase req dbError now newId st).1 =
            { status := 400, success := false,
              error := some (.msg duplicateMsg) } ∧
          (POST zodBase req dbError now newId st).2.1.wl = st.wl)) ∧
    (∀ calls : List PostCall,
      (postRun zodBase { rl := rateLimitStore0, wl := [] } calls).wl.Pairwise
        (fun r1 r2 => normEmail r1.email ≠ normEmail r2.email)) ∧
    (∀ (req : PostReq) (dbError : Bool) (now : Nat) (newId : String)
        (st : DbPostState) (e : List Char),
      req.body = .withEmail e →
      (DbPOST zodBase req dbError now newId st).2.1.wl ≠ st.wl →
        (DbPOST zodBase req dbError now newId st).2.1.wl =
            st.wl ++ [{ id := newId, email := normEmail e }] ∧
          st.wl.find? (fun row => row.email == normEmail e) = none) ∧
    (∀ calls : List PostCall,
      (dbPostRun zodBase { rl := dbStore0, wl := [] } calls).wl.Pairwise
        (fun r1 r2 => normEmail r1.email ≠ normEmail r2.email)) := by
  refine ⟨fun req dbError now newId st e hbody => ⟨?_, ?_⟩,
    fun calls => ?_, fun req dbError now newId st e hbody hch => ?_,
    fun calls => ?_⟩
  · exact POST_wl_changed zodBase req dbError now newId st e hbody
  · intro row hfind hall hacc hdb
    unfold emailAccepted at hacc
    constructor <;> simp [POST, hbody, hall, hacc, hdb, hfind]
  · exact (postRun_wl_inv zodBase calls _ wlInv_nil).pairwise_norm
  · obtain ⟨happ, _, hnone⟩ :=
      DbPOST_wl_changed zodBase req dbError now newId st e hbody hch
    exact ⟨happ, hnone⟩
  · exact (dbPostRun_wl_inv zodBase calls _ wlInv_nil).pairwise_norm

theorem c7_waitlist_uniqueness_witness :
    (PostReq.mk none none (.withEmail "User@gmail.com".data)).body =
        .withEmail ("User@gmail.com".data) ∧
      (POST (fun _ => true) (PostReq.mk none none (.withEmail "User@gmail.com".data))
          false 0 "id1" (PostState.mk rateLimitStore0 [])).2.1.wl =
        [] ++ [{ id := "id1", email := normEmail ("User@gmail.com".data) }] :=
  ⟨rfl,
    (((c7_waitlist_uniqueness (fun _ => true)).1
        (PostReq.mk none none (.withEmail "User@gmail.com".data))
        false 0 "id1" (PostState.mk rateLimitStore0 [])
        ("User@gmail.com".data) rfl).1 (by decide)).1⟩

/-! ### Case sensitivity of the domain allow-list (C8) -/

theorem jsToLower_allowed_fix : ∀ a ∈ ALLOWED_DOMAINS, jsToLower a = a := by
  decide

theorem no_dot_allowed_suffix :
    ∀ a ∈ ALLOWED_DOMAINS, ∀ a2 ∈ ALLOWED_DOMAINS,
      ¬ (List.map jsToLowerChar ('.' :: a2) <:+ a) := by
  decide

/-- If lowercasing a domain yields an allowed domain but the domain is not
itself that allowed domain, the (case-sensitive) allow-list check fails. -/
theorem allowCheck_false_of_case_variant (d a : List Char)
    (ha : a ∈ ALLOWED_DOMAINS) (hlow : jsToLower d = a) (hne : d ≠ a) :
    allowCheck d = false := by
  rw [allowCheck, List.any_eq_false]
  intro a2 ha2
  rw [Bool.not_eq_true, Bool.or_eq_false_iff]
  constructor
  · rw [beq_eq_false_iff_ne]
    intro hda2
    subst hda2
    rw [jsToLower_allowed_fix d ha2] at hlow
    exact hne hlow
  · rw [Bool.eq_false_iff]
    intro hsuf
    rw [List.isSuffixOf_iff_suffix] at hsuf
    have hmap := List.IsSuffix.map jsToLowerChar hsuf
    have hsub : List.map jsToLowerChar ('.' :: a2) <:+ a := by
      rw [← hlow]
      exact hmap
    exact no_dot_allowed_suffix a ha a2 ha2 hsub

theorem jsToLower_dot_allowed_fix :
    ∀ a ∈ ALLOWED_DOMAINS, List.map jsToLowerChar ('.' :: a) = '.' :: a := by
  decide

theorem dot_allowed_suffix_eq :
    ∀ a ∈ ALLOWED_DOMAINS, ∀ a2 ∈ ALLOWED_DOMAINS,
      ('.' :: a) <:+ ('.' :: a2) → a = a2 := by
  decide

/-- If lowercasing a domain gives it an exact `"." ++ allowed` suffix (a
case variant of a subdomain of an allowed domain) but the domain itself does
not carry that suffix exactly — the case difference touches the
allowed-domain portion — the (case-sensitive) allow-list check fails. -/
theorem allowCheck_false_of_suffix_case_variant (d a : List Char)
    (ha : a ∈ ALLOWED_DOMAINS) (hlow : ('.' :: a) <:+ jsToLower d)
    (hne : ¬ (('.' :: a) <:+ d)) :
    allowCheck d = false := by
  rw [allowCheck, List.any_eq_false]
  intro a2 ha2
  rw [Bool.not_eq_true, Bool.or_eq_false_iff]
  constructor
  · rw [beq_eq_false_iff_ne]
    intro hda2
    subst hda2
    rw [jsToLower_allowed_fix d ha2] at hlow
    exact hne hlow
  · rw [Bool.eq_false_iff]
    intro hsuf
    rw [List.isSuffixOf_iff_suffix] at hsuf
    have hmap := List.IsSuffix.map jsToLowerChar hsuf
    rw [jsToLower_dot_allowed_fix a2 ha2] at hmap
    rcases Nat.le_total ('.' :: a).length ('.' :: a2).length with hle | hle
    · have hss := List.suffix_of_suffix_length_le hlow hmap hle
      have heq := dot_allowed_suffix_eq a ha a2 ha2 hss
      subst heq
      exact hne hsuf
    · have hss := List.suffix_of_suffix_length_le hmap hlow hle
      have heq := dot_allowed_suffix_eq a2 ha2 a ha hss
      subst heq
      exact hne hsuf

/-- Combined: whether the whole domain is a case variant of an allowed
domain, or of a subdomain of one with the case difference reaching into the
`"." ++ allowed` suffix, the allow-list check fails. -/
theorem allowCheck_false_of_case_touched (d a : List Char)
    (ha : a ∈ ALLOWED_DOMAINS)
    (hvar : (jsToLower d = a ∧ d ≠ a) ∨
            (('.' :: a) <:+ jsToLower d ∧ ¬ (('.' :: a) <:+ d))) :
    allowCheck d = false := by
  rcases hvar with ⟨hlow, hne⟩ | ⟨hlow, hne⟩
  · exact allowCheck_false_of_case_variant d a ha hlow hne
  · exact allowCheck_false_of_suffix_case_variant d a ha hlow hne

theorem refineCheck_false_of_allowCheck_false (e d : List Char)
    (hd : domainOf e = some d) (hac : allowCheck d = false) :
    refineCheck e = false := by
  simp only [refineCheck, hd]
  rw [hac]
  simp

/-- C8 counterexample: the claim predicts a 400 rejection for every
syntactically valid email whose domain differs only by letter case from an
allowed domain or a subdomain of one.  `"user@Foo.gmail.com"` has domain
`"Foo.gmail.com"`, a pure case variant of `"foo.gmail.com"`, which is a
subdomain of the allowed `gmail.com`; yet the exact
`endsWith(".gmail.com")` comparison still succeeds, the refine accepts it,
and the handler answers 201 — not 400. -/
theorem c8_counterexample :
    domainOf ("user@Foo.gmail.com".data) = some ("Foo.gmail.com".data) ∧
      jsToLower ("Foo.gmail.com".data) = "foo.gmail.com".data ∧
      "Foo.gmail.com".data ≠ "foo.gmail.com".data ∧
      "foo.gmail.com".data = "foo".data ++ '.' :: "gmail.com".data ∧
      "gmail.com".data ∈ ALLOWED_DOMAINS ∧
      refineCheck ("user@Foo.gmail.com".data) = true ∧
      (POST (fun _ => true)
          (PostReq.mk none none (.withEmail ("user@Foo.gmail.com".data)))
          false 0 "id" (PostState.mk rateLimitStore0 [])).1.status = 201 ∧
      (POST (fun _ => true)
          (PostReq.mk none none (.withEmail ("user@Foo.gmail.com".data)))
          false 0 "id" (PostState.mk rateLimitStore0 [])).1.status ≠ 400 := by
  decide

/-- C8 (amended): for every email passing zod's base pattern whose domain
differs from an allowed domain, or from a subdomain of one, only by letter
case, with the case difference touching the allowed-domain portion — the
domain either lowercases to an allowed domain without being equal to it, or
lowercases to something with an exact `"." ++ allowed` suffix that the
domain itself does not carry — the POST answers 400 with
`success = false`, because the allow-list comparison uses exact string
equality and `endsWith` without lowercasing.  A case difference confined to
the subdomain labels leaves the exact `"." ++ allowed` suffix intact, so
the allow-list still accepts it (see the counterexample), while the TLD
pattern alone is matched case-insensitively. -/
theorem c8_case_sensitivity_amended (zodBase : List Char → Bool) :
    (∀ (req : PostReq) (dbError : Bool) (now : Nat) (newId : String)
        (st : PostState) (e d a : List Char),
      req.body = .withEmail e →
      (checkRateLimit st.rl (ipOf req) 3 60000 now).1.allowed = true →
      zodBase e = true →
      domainOf e = some d →
      a ∈ ALLOWED_DOMAINS →
      ((jsToLower d = a ∧ d ≠ a) ∨
        (('.' :: a) <:+ jsToLower d ∧ ¬ (('.' :: a) <:+ d))) →
      (POST zodBase req dbError now newId st).1.status = 400 ∧
        (POST zodBase req dbError now newId st).1.success = false) ∧
    (∀ (pre a : List Char), a ∈ ALLOWED_DOMAINS →
      allowCheck (pre ++ '.' :: a) = true) ∧
    tldOk ("CoM".data) = true ∧ tldOk ("com".data) = true := by
  refine ⟨fun req dbError now newId st e d a hbody hall hzb hd ha hvar => ?_,
    fun pre a ha => ?_, by decide, by decide⟩
  · have hac := allowCheck_false_of_case_touched d a ha hvar
    have hrf := refineCheck_false_of_allowCheck_false e d hd hac
    constructor <;> simp [POST, hbody, hall, hzb, hrf]
  · rw [allowCheck, List.any_eq_true]
    refine ⟨a, ha, ?_⟩
    rw [Bool.or_eq_true]
    right
    rw [List.isSuffixOf_iff_suffix]
    exact ⟨pre, rfl⟩

theorem c8_case_sensitivity_amended_witness :
    (('.' :: "gmail.com".data) <:+ jsToLower ("foo.Gmail.com".data) ∧
        ¬ (('.' :: "gmail.com".data) <:+ "foo.Gmail.com".data)) ∧
      (POST (fun _ => true)
          (PostReq.mk none none (.withEmail ("user@foo.Gmail.com".data)))
          false 0 "id" (PostState.mk rateLimitStore0 [])).1.status = 400 :=
  ⟨⟨by decide, by decide⟩,
    ((c8_case_sensitivity_amended (fun _ => true)).1
      (PostReq.mk none none (.withEmail ("user@foo.Gmail.com".data)))
      false 0 "id" (PostState.mk rateLimitStore0 [])
      ("user@foo.Gmail.com".data) ("foo.Gmail.com".data) ("gmail.com".data)
      rfl (by decide) rfl (by decide) (by decide)
      (Or.inr ⟨by decide, by decide⟩)).1⟩

end Nimbus
